import Mathlib

/-!
Verification of the memory-game core of this repository.

The definitions below are a shallow embedding of the client game logic in
`src/server.ts`: the `CardData`/`GameCard` records, the deck construction in
`initGame`, the click handler `handleCardClick` together with the guard in the
`Card` component (`!disabled && !card.isFlipped && !card.isMatched`), and the
two `setTimeout` resolution callbacks (match and mismatch paths).

JavaScript `setTimeout` callbacks are modelled explicitly: scheduling a
callback appends a `Timer` value recording exactly the data the closure
captures (the flipped ids, the matched card id and points, the stale `matches`
counter, the game mode and current player); firing a timer applies the
corresponding state update.  `initGame` never cancels timers, exactly as in
the source, so pending timers survive a restart.

A crash (the source would throw, e.g. `newCards[-1].isFlipped = true` after a
failed `findIndex`) is modelled by `Option.none`.
-/

inductive CardType where
  | image
  | text
deriving DecidableEq, Repr

/-- A catalog entry as returned by the card APIs (`CardData` in the source).
`points` and `author` are optional fields; a missing or `null` `points` is
`none`. -/
structure CardData where
  id : String
  image_data : String
  points : Option Nat
  author : Option String
deriving DecidableEq, Repr

/-- One playable piece of the deck (`GameCard` in the source). -/
structure GameCard where
  id : String
  image_data : String
  points : Option Nat
  author : Option String
  uniqueId : Nat
  isFlipped : Bool
  isMatched : Bool
  isHighlighting : Bool
  cardType : CardType
deriving DecidableEq, Repr

inductive GameMode where
  | solo
  | multiplayer
deriving DecidableEq, Repr

inductive Player where
  | one
  | two
deriving DecidableEq, Repr

structure Scores where
  p1 : Nat
  p2 : Nat
deriving DecidableEq, Repr

/-- The React state of one game session: the `useState` variables of `App`
that the game logic touches. -/
structure GameState where
  gameMode : GameMode
  currentPlayer : Player
  scores : Scores
  cards : List GameCard
  flippedCards : List Nat
  matchCount : Nat
  moves : Nat
  isWon : Bool
  matchedCardId : Option String
deriving DecidableEq, Repr

/-- A pending `setTimeout` callback, recording the values its closure
captured in `handleCardClick`. -/
inductive Timer where
  | mismatch (flippedIds : List Nat) (gm : GameMode)
  | matchHighlight (firstId secondId : Nat) (cardId : String) (points : Option Nat)
      (staleMatches : Nat) (gm : GameMode) (player : Player)
  | matchResolve (cardId : String) (points : Option Nat)
      (staleMatches : Nat) (gm : GameMode) (player : Player)
deriving DecidableEq, Repr

/-- Game state plus the queue of pending timer callbacks. -/
structure AppState where
  game : GameState
  timers : List Timer
deriving DecidableEq, Repr

/-- JavaScript `p || 10`: `undefined`, `null` and `0` are falsy. -/
def jsOrTen (p : Option Nat) : Nat :=
  match p with
  | none => 10
  | some n => if n = 0 then 10 else n

def togglePlayer : Player → Player
  | .one => .two
  | .two => .one

/-- The scoring policy of the match callback: solo mode credits `p1`,
two-player mode credits the bucket of the (captured) current player. -/
def creditScore (gm : GameMode) (player : Player) (pts : Nat) (sc : Scores) : Scores :=
  match gm with
  | .solo => { sc with p1 := sc.p1 + pts }
  | .multiplayer =>
    match player with
    | .one => { sc with p1 := sc.p1 + pts }
    | .two => { sc with p2 := sc.p2 + pts }

/-- Model of `findIndex` followed by `newCards[cardIndex].isFlipped = true`: flip the
first card with the given `uniqueId`; `none` when `findIndex` returns `-1`
(in the source the subsequent assignment would throw). -/
def findFlip : List GameCard → Nat → Option (List GameCard)
  | [], _ => none
  | c :: cs, uid =>
    if c.uniqueId = uid then some ({ c with isFlipped := true } :: cs)
    else (findFlip cs uid).map (fun l => c :: l)

/-- The click handler `handleCardClick` from the source.  Returns the updated state and the
list of timers it schedules, or `none` for the crash on an unknown id.
The nested match-path timeouts are modelled by `Timer.matchHighlight`
producing a `Timer.matchResolve` when it fires. -/
def handleCardClick (s : GameState) (uid : Nat) : Option (GameState × List Timer) :=
  if s.flippedCards.length = 2 then some (s, [])
  else
    match findFlip s.cards uid with
    | none => none
    | some newCards =>
      let s1 := { s with cards := newCards, flippedCards := s.flippedCards ++ [uid] }
      match s.flippedCards with
      | [firstId] =>
        let s2 := { s1 with moves := s1.moves + 1 }
        match s.cards.find? (fun c => c.uniqueId = firstId),
              s.cards.find? (fun c => c.uniqueId = uid) with
        | some firstCard, some secondCard =>
          if firstCard.id = secondCard.id then
            some (s2, [Timer.matchHighlight firstId uid firstCard.id firstCard.points
              s.matchCount s.gameMode s.currentPlayer])
          else
            some (s2, [Timer.mismatch [firstId, uid] s.gameMode])
        | _, _ => none
      | _ => some (s1, [])

/-- Firing one scheduled callback; returns the new game state and the list
of callbacks it schedules in turn (the match highlight schedules the final
resolution step). -/
def fireTimer (t : Timer) (s : GameState) : GameState × List Timer :=
  match t with
  | .mismatch ids gm =>
    ({ s with
        cards := s.cards.map (fun c =>
          if ids.contains c.uniqueId then { c with isFlipped := false } else c),
        flippedCards := [],
        currentPlayer :=
          if gm = .multiplayer then togglePlayer s.currentPlayer else s.currentPlayer },
     [])
  | .matchHighlight a b cid pts stale gm pl =>
    ({ s with
        cards := s.cards.map (fun c =>
          if c.uniqueId = a ∨ c.uniqueId = b then { c with isHighlighting := true } else c),
        matchedCardId := some cid },
     [Timer.matchResolve cid pts stale gm pl])
  | .matchResolve cid pts stale gm pl =>
    ({ s with
        cards := s.cards.map (fun c =>
          if c.id = cid then { c with isMatched := true, isHighlighting := false } else c),
        matchCount := s.matchCount + 1,
        matchedCardId := none,
        scores := creditScore gm pl (jsOrTen pts) s.scores,
        flippedCards := [],
        isWon := if stale + 1 = 6 then true else s.isWon },
     [])

/-- A player click on a card, as exposed by the UI: the `Card` component
guard `!disabled && !card.isFlipped && !card.isMatched` (with
`disabled = flippedCards.length === 2`) in front of `handleCardClick`. -/
def clickStep (a : AppState) (uid : Nat) : AppState :=
  match a.game.cards.find? (fun c => c.uniqueId = uid) with
  | none => a
  | some c =>
    if a.game.flippedCards.length = 2 ∨ c.isFlipped ∨ c.isMatched then a
    else
      match handleCardClick a.game uid with
      | some (g, ts) => { game := g, timers := a.timers ++ ts }
      | none => a

/-- The elapse of the earliest pending timeout. -/
def fireStep (a : AppState) : AppState :=
  match a.timers with
  | [] => a
  | t :: rest =>
    let p := fireTimer t a.game
    { game := p.1, timers := rest ++ p.2 }

/-- The image and text pieces generated for one selected catalog card
(the two `gamePool.push` calls; the temporary `Math.random()` `uniqueId`
is modelled as `0`, it is overwritten below). -/
def piecesOf (card : CardData) : List GameCard :=
  [{ id := card.id, image_data := card.image_data, points := card.points,
     author := card.author, uniqueId := 0, isFlipped := false, isMatched := false,
     isHighlighting := false, cardType := .image },
   { id := card.id, image_data := card.image_data, points := card.points,
     author := card.author, uniqueId := 0, isFlipped := false, isMatched := false,
     isHighlighting := false, cardType := .text }]

/-- The `gamePool` built from the six selected cards. -/
def makePieces (selected : List CardData) : List GameCard :=
  selected.flatMap piecesOf

/-- Model of `.map((card, index) => ({ ...card, uniqueId: index }))`. -/
def assignIdsFrom : Nat → List GameCard → List GameCard
  | _, [] => []
  | n, c :: cs => { c with uniqueId := n } :: assignIdsFrom (n + 1) cs

def assignIds (l : List GameCard) : List GameCard :=
  assignIdsFrom 0 l

/-- The deck builder `initGame` from the source.  The two `sort(() => Math.random() - 0.5)`
shuffles are injected as the parameters `shuffledPool` (a permutation of
`allCards`) and `shuffledGame` (a permutation of
`makePieces (shuffledPool.take 6)`); the permutation facts are hypotheses of
the theorems, since the code fixes no shuffle distribution.  Fails (`none`,
the alert plus redirect to the admin panel) when fewer than 6 cards exist.
The timers of the previous app state are NOT cleared, exactly as in the
source, which never calls `clearTimeout`. -/
def initGame (prev : AppState) (mode : GameMode) (allCards : List CardData)
    (shuffledPool : List CardData) (shuffledGame : List GameCard) : Option AppState :=
  if allCards.length < 6 then none
  else
    some
      { game :=
          { gameMode := mode, currentPlayer := .one, scores := { p1 := 0, p2 := 0 },
            cards := assignIds shuffledGame, flippedCards := [],
            matchCount := 0, moves := 0, isWon := false, matchedCardId := none },
        timers := prev.timers }

/-- Pieces that are face-up but not yet resolved. -/
def flippedUnmatchedCount (g : GameState) : Nat :=
  g.cards.countP (fun c => c.isFlipped && !c.isMatched)

/-- States reachable from `a0` by clicks and timer elapses. -/
inductive Reachable (a0 : AppState) : AppState → Prop where
  | refl : Reachable a0 a0
  | click {a : AppState} (uid : Nat) : Reachable a0 a → Reachable a0 (clickStep a uid)
  | fire {a : AppState} : Reachable a0 a → Reachable a0 (fireStep a)

/-- The game mode captured by a timer closure. -/
def timerGm : Timer → GameMode
  | .mismatch _ gm => gm
  | .matchHighlight _ _ _ _ _ gm _ => gm
  | .matchResolve _ _ _ gm _ => gm

/-- A concrete mid-game state whose selection buffer is full. -/
def fullBufferGame : GameState where
  gameMode := .solo
  currentPlayer := .one
  scores := ⟨0, 0⟩
  cards := []
  flippedCards := [4, 7]
  matchCount := 0
  moves := 3
  isWon := false
  matchedCardId := none

/-- A concrete state with two matching cards pending resolution. -/
def pendingResolveGame : GameState where
  gameMode := .solo
  currentPlayer := .one
  scores := ⟨5, 0⟩
  cards := []
  flippedCards := [0, 1]
  matchCount := 0
  moves := 1
  isWon := false
  matchedCardId := none

/-- A concrete 6-card catalog with pairwise distinct identities. -/
def sampleCatalog : List CardData :=
  [{ id := "lion", image_data := "img-lion", points := some 20, author := some "Admin" },
   { id := "cat", image_data := "img-cat", points := some 10, author := some "Admin" },
   { id := "dog", image_data := "img-dog", points := some 10, author := some "Admin" },
   { id := "fish", image_data := "img-fish", points := some 10, author := some "Admin" },
   { id := "bird", image_data := "img-bird", points := some 10, author := some "Admin" },
   { id := "frog", image_data := "img-frog", points := some 10, author := some "Admin" }]

/-- The deck obtained from `sampleCatalog` with both shuffles the identity. -/
def sampleDeck : List GameCard := assignIds (makePieces sampleCatalog)

/-- A fresh session over a given deck, as produced by `initGame`. -/
def mkFreshGame (mode : GameMode) (deck : List GameCard) : GameState where
  gameMode := mode
  currentPlayer := .one
  scores := ⟨0, 0⟩
  cards := deck
  flippedCards := []
  matchCount := 0
  moves := 0
  isWon := false
  matchedCardId := none

def sampleApp (mode : GameMode) : AppState :=
  { game := mkFreshGame mode sampleDeck, timers := [] }

/-- In a solo session the mode, the player and the modes captured by all
pending timers stay `solo`/player one. -/
def SoloInv (a : AppState) : Prop :=
  a.game.gameMode = .solo ∧ a.game.currentPlayer = .one ∧
    ∀ t ∈ a.timers, timerGm t = .solo

/-- The sample two-player session after flipping cards 0 (lion image) and
2 (cat image): a mismatch timer is pending. -/
def c8Clicked : AppState := clickStep (clickStep (sampleApp .multiplayer) 0) 2

/-- A restart while the mismatch timer is still pending: `initGame` keeps it. -/
def c8Restarted : AppState :=
  (initGame c8Clicked .multiplayer sampleCatalog sampleCatalog
    (makePieces sampleCatalog)).getD c8Clicked

/-- The lion image piece of `sampleDeck` after being flipped by the first click. -/
def lionImageFlipped : GameCard where
  id := "lion"
  image_data := "img-lion"
  points := some 20
  author := some "Admin"
  uniqueId := 0
  isFlipped := true
  isMatched := false
  isHighlighting := false
  cardType := .image

/-- The lion text piece of `sampleDeck`, still face down. -/
def lionTextCard : GameCard where
  id := "lion"
  image_data := "img-lion"
  points := some 20
  author := some "Admin"
  uniqueId := 1
  isFlipped := false
  isMatched := false
  isHighlighting := false
  cardType := .text

/-- Consistency of the pending-timer queue with the game state: within one
session at most one resolution chain is pending, its captured data agrees
with the current state, and it is pending only while the buffer is full. -/
def TimersOK : List Timer → GameState → Prop
  | [], _ => True
  | [.mismatch ids gm], g =>
      ids = g.flippedCards ∧ ids.length = 2 ∧ gm = g.gameMode
  | [.matchHighlight x y cid _pts stale gm _pl], g =>
      g.flippedCards = [x, y] ∧ stale = g.matchCount ∧ gm = g.gameMode ∧
      (∀ c ∈ g.cards, c.uniqueId ∈ g.flippedCards → c.id = cid)
  | [.matchResolve cid _pts stale gm _pl], g =>
      g.flippedCards.length = 2 ∧ stale = g.matchCount ∧ gm = g.gameMode ∧
      (∀ c ∈ g.cards, c.uniqueId ∈ g.flippedCards → c.id = cid)
  | _, _ => False

/-- The session invariant needed for the face-up bound. -/
structure InvBase (a : AppState) : Prop where
  nodupUids : (a.game.cards.map (fun c => c.uniqueId)).Nodup
  nodupBuf : a.game.flippedCards.Nodup
  bufLen : a.game.flippedCards.length ≤ 2
  flippedInBuf : ∀ c ∈ a.game.cards, c.isFlipped = true → c.isMatched = false →
    c.uniqueId ∈ a.game.flippedCards
  bufWitness : ∀ uid ∈ a.game.flippedCards,
    ∃ c ∈ a.game.cards, c.uniqueId = uid ∧ c.isFlipped = true ∧ c.isMatched = false
  timersOK : TimersOK a.timers a.game

/-- The additional counting invariant needed for the completion claim. -/
structure InvExt (a : AppState) : Prop where
  cardsLen : a.game.cards.length = 12
  pairs : ∀ c ∈ a.game.cards,
    a.game.cards.countP (fun c2 => decide (c2.id = c.id)) = 2
  matchedCount : 2 * a.game.matchCount = a.game.cards.countP (fun c => c.isMatched)
  wonIff : a.game.isWon = true ↔ a.game.matchCount = 6

theorem findFlip_eq_none_iff (l : List GameCard) (uid : Nat) :
    findFlip l uid = none ↔ l.find? (fun c => c.uniqueId = uid) = none := by
  induction l with
  | nil => simp [findFlip]
  | cons c cs ih =>
    by_cases h : c.uniqueId = uid
    · simp [findFlip, List.find?_cons, h]
    · simp [findFlip, List.find?_cons, h, ih]

theorem findFlip_decomp {l : List GameCard} {uid : Nat} {c : GameCard}
    (h : l.find? (fun x => decide (x.uniqueId = uid)) = some c) :
    ∃ l1 l2, l = l1 ++ c :: l2 ∧ (∀ x ∈ l1, x.uniqueId ≠ uid) ∧ c.uniqueId = uid ∧
      findFlip l uid = some (l1 ++ { c with isFlipped := true } :: l2) := by
  induction l with
  | nil => simp at h
  | cons a as ih =>
    by_cases ha : a.uniqueId = uid
    · rw [List.find?_cons_of_pos _ (by simpa using ha)] at h
      cases h
      exact ⟨[], as, rfl, by simp, ha, by simp [findFlip, ha]⟩
    · rw [List.find?_cons_of_neg _ (by simpa using ha)] at h
      obtain ⟨l1, l2, heq, hmiss, hc, hff⟩ := ih h
      refine ⟨a :: l1, l2, by simp [heq], ?_, hc, by simp [findFlip, ha, hff]⟩
      intro x hx
      rcases List.mem_cons.mp hx with rfl | hx
      · exact ha
      · exact hmiss x hx

theorem clickStep_noop_of_guard (a : AppState) (uid : Nat)
    (h : a.game.flippedCards.length = 2 ∨
      ∃ c, a.game.cards.find? (fun x => decide (x.uniqueId = uid)) = some c ∧
        (c.isFlipped = true ∨ c.isMatched = true)) :
    clickStep a uid = a := by
  unfold clickStep
  rcases h with h2 | ⟨c, hc, hcase⟩
  · cases hfind : a.game.cards.find? (fun x => decide (x.uniqueId = uid)) with
    | none => rfl
    | some c => simp [h2]
  · rw [hc]
    rcases hcase with h | h <;> simp [h]

theorem clickStep_noop_of_not_found (a : AppState) (uid : Nat)
    (h : a.game.cards.find? (fun x => decide (x.uniqueId = uid)) = none) :
    clickStep a uid = a := by
  unfold clickStep
  rw [h]

/-- Claim C1: whenever the selection buffer already holds 2 entries, or the
targeted piece is already face-up, or already resolved, the flip action (the
card click as exposed by the UI) leaves the whole app state — deck, selection
buffer, scores, move count, matched-pair count and pending timers — unchanged. -/
theorem claim_C1_guarded_flip_is_noop (a : AppState) (uid : Nat)
    (h : a.game.flippedCards.length = 2 ∨
      ∃ c, a.game.cards.find? (fun x => decide (x.uniqueId = uid)) = some c ∧
        (c.isFlipped = true ∨ c.isMatched = true)) :
    clickStep a uid = a :=
  clickStep_noop_of_guard a uid h

/-- Witness for C1 at a concrete state: a buffer holding 2 entries blocks
the click. -/
theorem claim_C1_witness :
    clickStep { game := fullBufferGame, timers := [] } 4 =
      { game := fullBufferGame, timers := [] } :=
  claim_C1_guarded_flip_is_noop _ 4 (Or.inl rfl)

/-- Claim C4: deck construction fails (alert plus redirect to the admin
panel, no game started, modelled by `none`) exactly when the fetched catalog
has fewer than 6 definitions, and succeeds otherwise. -/
theorem claim_C4_insufficient_catalog (prev : AppState) (mode : GameMode)
    (allCards shuffledPool : List CardData) (shuffledGame : List GameCard) :
    initGame prev mode allCards shuffledPool shuffledGame = none ↔ allCards.length < 6 := by
  unfold initGame
  split <;> simp_all

/-- Claim C10: a match resolution whose captured card definition has an
absent/null `points` field or `points = 0` credits exactly 10 points to the
bucket selected by the scoring policy for the captured mode and player. -/
theorem claim_C10_default_points (s : GameState) (cid : String) (pts : Option Nat)
    (stale : Nat) (gm : GameMode) (pl : Player) (h : pts = none ∨ pts = some 0) :
    (fireTimer (.matchResolve cid pts stale gm pl) s).1.scores =
      creditScore gm pl 10 s.scores := by
  rcases h with h | h <;> subst h <;> rfl

/-- Witness for C10: resolving a 0-point match in solo mode adds 10 to
player 1's bucket. -/
theorem claim_C10_witness :
    (fireTimer (.matchResolve "a" (some 0) 0 .solo .one) pendingResolveGame).1.scores =
      creditScore .solo .one 10 ⟨5, 0⟩ :=
  claim_C10_default_points pendingResolveGame "a" (some 0) 0 .solo .one (Or.inr rfl)

/-- Full case analysis of a successful `handleCardClick` call. -/
theorem handleCardClick_cases {s : GameState} {uid : Nat} {g : GameState} {ts : List Timer}
    (h : handleCardClick s uid = some (g, ts)) :
    (s.flippedCards.length = 2 ∧ g = s ∧ ts = []) ∨
    (s.flippedCards.length ≠ 2 ∧ ∃ nc, findFlip s.cards uid = some nc ∧
      ((∃ firstId firstCard secondCard,
          s.flippedCards = [firstId] ∧
          s.cards.find? (fun c => decide (c.uniqueId = firstId)) = some firstCard ∧
          s.cards.find? (fun c => decide (c.uniqueId = uid)) = some secondCard ∧
          g = { s with cards := nc, flippedCards := [firstId, uid], moves := s.moves + 1 } ∧
          ((firstCard.id = secondCard.id ∧
             ts = [Timer.matchHighlight firstId uid firstCard.id firstCard.points
               s.matchCount s.gameMode s.currentPlayer]) ∨
           (firstCard.id ≠ secondCard.id ∧ ts = [Timer.mismatch [firstId, uid] s.gameMode]))) ∨
       (s.flippedCards.length ≠ 1 ∧
          g = { s with cards := nc, flippedCards := s.flippedCards ++ [uid] } ∧ ts = []))) := by
  unfold handleCardClick at h
  split at h
  case isTrue h2 =>
    left
    cases h
    exact ⟨h2, rfl, rfl⟩
  case isFalse h2 =>
    right
    refine ⟨h2, ?_⟩
    split at h
    case h_1 => cases h
    case h_2 nc hff =>
      refine ⟨nc, ?_, ?_⟩
      · exact hff
      · split at h
        case h_1 f hfc =>
          left
          split at h
          case h_1 firstCard secondCard hf1 hf2 =>
            refine ⟨f, firstCard, secondCard, hfc, hf1, hf2, ?_, ?_⟩
            · split at h <;> · cases h; simp [hfc]
            · split at h
              case isTrue hid => cases h; exact Or.inl ⟨hid, rfl⟩
              case isFalse hid => cases h; exact Or.inr ⟨hid, rfl⟩
          case h_2 => cases h
        case h_2 hne =>
          right
          cases h
          refine ⟨?_, rfl, rfl⟩
          intro hlen
          obtain ⟨x, hx⟩ := List.length_eq_one.mp hlen
          exact hne x hx

/-- A click is either a no-op or a guarded, successful `handleCardClick`. -/
theorem clickStep_cases (a : AppState) (uid : Nat) :
    clickStep a uid = a ∨
    ∃ c g ts, a.game.cards.find? (fun x => decide (x.uniqueId = uid)) = some c ∧
      c.isFlipped = false ∧ c.isMatched = false ∧ ¬a.game.flippedCards.length = 2 ∧
      handleCardClick a.game uid = some (g, ts) ∧
      clickStep a uid = { game := g, timers := a.timers ++ ts } := by
  cases hf : a.game.cards.find? (fun x => decide (x.uniqueId = uid)) with
  | none => exact Or.inl (clickStep_noop_of_not_found a uid hf)
  | some c =>
    by_cases hg : a.game.flippedCards.length = 2 ∨ c.isFlipped = true ∨ c.isMatched = true
    · refine Or.inl (clickStep_noop_of_guard a uid ?_)
      rcases hg with hg | hg
      · exact Or.inl hg
      · exact Or.inr ⟨c, hf, hg⟩
    · have hred : clickStep a uid =
          match handleCardClick a.game uid with
          | some (g, ts) => { game := g, timers := a.timers ++ ts }
          | none => a := by
        unfold clickStep
        rw [hf]
        simp only [if_neg hg]
      push_neg at hg
      obtain ⟨h2, hfl, hm⟩ := hg
      cases hh : handleCardClick a.game uid with
      | none =>
        left
        rw [hred, hh]
      | some p =>
        right
        refine ⟨c, p.1, p.2, rfl, by simpa using hfl, by simpa using hm, h2, by simp [hh], ?_⟩
        rw [hred, hh]

/-- Claim C9 (counterexample): in a fresh sample session, the flip action on
`instanceId = 99`, which is absent from the deck, does not leave the session
state unchanged without crashing: `handleCardClick` hits the failed
`findIndex` and throws (`none`), and nothing is logged. -/
theorem claim_C9_counterexample :
    handleCardClick (mkFreshGame .solo sampleDeck) 99 = none ∧
    handleCardClick (mkFreshGame .solo sampleDeck) 99 ≠
      some (mkFreshGame .solo sampleDeck, []) := by
  exact ⟨by decide, by decide⟩

/-- Claim C9 (amended): a flip routed through the exposed card surface on an
unknown or already-resolved `instanceId` is silently ignored — the state is
unchanged, though nothing is logged; but `handleCardClick` itself has no
defensive guard: on an `instanceId` absent from the deck (reachable only
outside the card surface) it crashes (`none`, the thrown TypeError) instead
of ignoring the action. -/
theorem claim_C9_amended :
    (∀ (a : AppState) (uid : Nat),
        a.game.cards.find? (fun c => decide (c.uniqueId = uid)) = none →
        clickStep a uid = a) ∧
    (∀ (a : AppState) (uid : Nat) (c : GameCard),
        a.game.cards.find? (fun x => decide (x.uniqueId = uid)) = some c →
        c.isMatched = true → clickStep a uid = a) ∧
    (∀ (s : GameState) (uid : Nat), s.flippedCards.length ≠ 2 →
        s.cards.find? (fun c => decide (c.uniqueId = uid)) = none →
        handleCardClick s uid = none) := by
  refine ⟨?_, ?_, ?_⟩
  · intro a uid h
    exact clickStep_noop_of_not_found a uid h
  · intro a uid c hc hm
    exact clickStep_noop_of_guard a uid (Or.inr ⟨c, hc, Or.inr hm⟩)
  · intro s uid h2 hfind
    unfold handleCardClick
    rw [if_neg h2, (findFlip_eq_none_iff s.cards uid).mpr hfind]

/-- Witness for the amended C9 at concrete inputs. -/
theorem claim_C9_amended_witness :
    clickStep (sampleApp .solo) 99 = sampleApp .solo ∧
    handleCardClick (mkFreshGame .multiplayer sampleDeck) 42 = none := by
  constructor
  · exact claim_C9_amended.1 (sampleApp .solo) 99 (by decide)
  · exact claim_C9_amended.2.2 (mkFreshGame .multiplayer sampleDeck) 42 (by decide) (by decide)

theorem soloInv_clickStep {a : AppState} (uid : Nat) (h : SoloInv a) :
    SoloInv (clickStep a uid) := by
  rcases clickStep_cases a uid with heq | ⟨c, g, ts, _, _, _, _, hh, heq⟩
  · rw [heq]; exact h
  · rw [heq]
    obtain ⟨hgm, hpl, htm⟩ := h
    have hts : ∀ t ∈ ts, timerGm t = .solo := by
      rcases handleCardClick_cases hh with ⟨_, _, rfl⟩ | ⟨_, nc, _, hcase⟩
      · simp
      · rcases hcase with ⟨f, fc, sc, _, _, _, _, hts⟩ | ⟨_, _, rfl⟩
        · rcases hts with ⟨_, rfl⟩ | ⟨_, rfl⟩ <;>
            · intro t ht
              simp only [List.mem_singleton] at ht
              subst ht
              simp [timerGm, hgm]
        · simp
    have hg : g.gameMode = a.game.gameMode ∧ g.currentPlayer = a.game.currentPlayer := by
      rcases handleCardClick_cases hh with ⟨_, rfl, _⟩ | ⟨_, nc, _, hcase⟩
      · exact ⟨rfl, rfl⟩
      · rcases hcase with ⟨f, fc, sc, _, _, _, rfl, _⟩ | ⟨_, rfl, _⟩ <;> exact ⟨rfl, rfl⟩
    refine ⟨hg.1.trans hgm, hg.2.trans hpl, ?_⟩
    intro t ht
    rcases List.mem_append.mp ht with ht | ht
    · exact htm t ht
    · exact hts t ht

theorem soloInv_fireStep {a : AppState} (h : SoloInv a) : SoloInv (fireStep a) := by
  obtain ⟨hgm, hpl, htm⟩ := h
  unfold fireStep
  cases ht : a.timers with
  | nil => exact ⟨hgm, hpl, by rw [ht]; simp⟩
  | cons t rest =>
    have htsolo : timerGm t = .solo := htm t (by rw [ht]; simp)
    have hrest : ∀ u ∈ rest, timerGm u = .solo := fun u hu => htm u (by rw [ht]; simp [hu])
    cases t with
    | mismatch ids gm =>
      simp only [timerGm] at htsolo
      subst htsolo
      refine ⟨hgm, by simpa [fireTimer] using hpl, ?_⟩
      intro u hu
      simp only [fireTimer, List.append_nil] at hu
      exact hrest u hu
    | matchHighlight x y cid pts stale gm pl =>
      simp only [timerGm] at htsolo
      subst htsolo
      refine ⟨hgm, by simpa [fireTimer] using hpl, ?_⟩
      intro u hu
      simp only [fireTimer] at hu
      rcases List.mem_append.mp hu with hu | hu
      · exact hrest u hu
      · simp only [List.mem_singleton] at hu
        subst hu
        rfl
    | matchResolve cid pts stale gm pl =>
      refine ⟨hgm, by simpa [fireTimer] using hpl, ?_⟩
      intro u hu
      simp only [fireTimer, List.append_nil] at hu
      exact hrest u hu

theorem soloInv_reachable {a0 s : AppState} (h0 : SoloInv a0) (hr : Reachable a0 s) :
    SoloInv s := by
  induction hr with
  | refl => exact h0
  | click uid _ ih => exact soloInv_clickStep uid ih
  | fire _ ih => exact soloInv_fireStep ih

/-- Claim C6: in two-player mode a mismatch resolution toggles the active
player between 1 and 2 while match resolutions (highlight and resolve steps)
never change it; in solo mode a mismatch leaves the player unchanged, every
match credits player 1's bucket, and in any solo session reachable from a
fresh start the active player never changes. -/
theorem claim_C6_turn_policy :
    (∀ (s : GameState) (ids : List Nat),
        (fireTimer (.mismatch ids .multiplayer) s).1.currentPlayer =
          togglePlayer s.currentPlayer) ∧
    (∀ p : Player, togglePlayer p ≠ p) ∧
    (∀ (s : GameState) (cid : String) (pts : Option Nat) (stale : Nat)
        (gm : GameMode) (pl : Player),
        (fireTimer (.matchResolve cid pts stale gm pl) s).1.currentPlayer =
          s.currentPlayer) ∧
    (∀ (s : GameState) (x y : Nat) (cid : String) (pts : Option Nat) (stale : Nat)
        (gm : GameMode) (pl : Player),
        (fireTimer (.matchHighlight x y cid pts stale gm pl) s).1.currentPlayer =
          s.currentPlayer) ∧
    (∀ (s : GameState) (ids : List Nat),
        (fireTimer (.mismatch ids .solo) s).1.currentPlayer = s.currentPlayer) ∧
    (∀ (s : GameState) (cid : String) (pts : Option Nat) (stale : Nat) (pl : Player),
        (fireTimer (.matchResolve cid pts stale .solo pl) s).1.scores =
          { p1 := s.scores.p1 + jsOrTen pts, p2 := s.scores.p2 }) ∧
    (∀ a0 s : AppState, a0.game.gameMode = .solo → a0.game.currentPlayer = .one →
        a0.timers = [] → Reachable a0 s → s.game.currentPlayer = .one) := by
  refine ⟨fun s ids => rfl, ?_, fun s cid pts stale gm pl => rfl,
    fun s x y cid pts stale gm pl => rfl, fun s ids => rfl,
    fun s cid pts stale pl => rfl, ?_⟩
  · intro p
    cases p <;> simp [togglePlayer]
  · intro a0 s hgm hpl htm hr
    exact (soloInv_reachable ⟨hgm, hpl, by simp [htm]⟩ hr).2.1

/-- Witness for C6: a concrete two-player mismatch toggles player one to
player two, and the reachable fresh solo session keeps player one. -/
theorem claim_C6_witness :
    (fireTimer (.mismatch [0, 2] .multiplayer) (mkFreshGame .multiplayer sampleDeck)).1.currentPlayer =
      togglePlayer Player.one ∧
    (sampleApp .solo).game.currentPlayer = Player.one := by
  constructor
  · exact claim_C6_turn_policy.1 (mkFreshGame .multiplayer sampleDeck) [0, 2]
  · exact claim_C6_turn_policy.2.2.2.2.2.2 (sampleApp .solo) (sampleApp .solo)
      rfl rfl rfl Reachable.refl

/-- Claim C8 evaluated at the failing input: after flipping two mismatched
cards and restarting before the 1s timeout, the pending mismatch callback of
the discarded session is still live, and firing it mutates the replacement
session, toggling its active player from 1 to 2.  The code never invalidates
scheduled callbacks. -/
theorem claim_C8_stale_timer_mutates_new_session :
    c8Clicked.timers = [Timer.mismatch [0, 2] .multiplayer] ∧
    initGame c8Clicked .multiplayer sampleCatalog sampleCatalog
      (makePieces sampleCatalog) = some c8Restarted ∧
    c8Restarted.timers = [Timer.mismatch [0, 2] .multiplayer] ∧
    c8Restarted.game.currentPlayer = Player.one ∧
    (fireStep c8Restarted).game.currentPlayer = Player.two := by
  exact ⟨by decide, by decide, by decide, by decide, by decide⟩

/-- Equation for `handleCardClick` on the second flip of a pair. -/
theorem handleCardClick_second_flip {s : GameState} {uid f : Nat} {cF cS : GameCard}
    (hbuf : s.flippedCards = [f])
    (hf1 : s.cards.find? (fun c => decide (c.uniqueId = f)) = some cF)
    (hf2 : s.cards.find? (fun c => decide (c.uniqueId = uid)) = some cS) :
    ∃ nc, findFlip s.cards uid = some nc ∧
      handleCardClick s uid =
        some ({ s with cards := nc, flippedCards := [f, uid], moves := s.moves + 1 },
          if cF.id = cS.id then
            [Timer.matchHighlight f uid cF.id cF.points s.matchCount s.gameMode s.currentPlayer]
          else [Timer.mismatch [f, uid] s.gameMode]) := by
  obtain ⟨l1, l2, heq, hmiss, hcuid, hffl⟩ := findFlip_decomp hf2
  refine ⟨_, hffl, ?_⟩
  unfold handleCardClick
  simp only [hbuf, hffl, hf1, hf2, List.length_cons, List.length_nil]
  norm_num
  split <;> rfl

/-- Claim C3: resolving two selected pieces with the same identity (second
click, highlight timeout, resolve timeout) increments the matched-pair count
by exactly 1 and the move count by exactly 1, and adds exactly the identity's
point value to the bucket chosen by the scoring policy for the current mode
and active player, leaving the other bucket unchanged.  (`p ≠ 0` reflects the
data model: point values are 10 or 20; a falsy `points` field is the subject
of C10.) -/
theorem claim_C3_match_resolution (s : GameState) (f uid : Nat) (cF cS : GameCard) (p : Nat)
    (hbuf : s.flippedCards = [f])
    (hf1 : s.cards.find? (fun c => decide (c.uniqueId = f)) = some cF)
    (hf2 : s.cards.find? (fun c => decide (c.uniqueId = uid)) = some cS)
    (hflip : cS.isFlipped = false) (hmatch : cS.isMatched = false)
    (hid : cF.id = cS.id) (hpts : cF.points = some p) (hp : p ≠ 0) :
    (fireStep (fireStep (clickStep ⟨s, []⟩ uid))).game.matchCount = s.matchCount + 1 ∧
    (fireStep (fireStep (clickStep ⟨s, []⟩ uid))).game.moves = s.moves + 1 ∧
    (fireStep (fireStep (clickStep ⟨s, []⟩ uid))).game.scores =
      creditScore s.gameMode s.currentPlayer p s.scores ∧
    ((s.gameMode = .solo ∨ s.currentPlayer = .one) →
      (fireStep (fireStep (clickStep ⟨s, []⟩ uid))).game.scores.p1 = s.scores.p1 + p ∧
      (fireStep (fireStep (clickStep ⟨s, []⟩ uid))).game.scores.p2 = s.scores.p2) ∧
    (s.gameMode = .multiplayer → s.currentPlayer = .two →
      (fireStep (fireStep (clickStep ⟨s, []⟩ uid))).game.scores.p2 = s.scores.p2 + p ∧
      (fireStep (fireStep (clickStep ⟨s, []⟩ uid))).game.scores.p1 = s.scores.p1) := by
  obtain ⟨nc, hffl, hhc⟩ := handleCardClick_second_flip hbuf hf1 hf2
  rw [if_pos hid] at hhc
  have hclick : clickStep ⟨s, []⟩ uid =
      ⟨{ s with cards := nc, flippedCards := [f, uid], moves := s.moves + 1 },
        [Timer.matchHighlight f uid cF.id cF.points s.matchCount s.gameMode s.currentPlayer]⟩ := by
    unfold clickStep
    simp only [hf2]
    rw [if_neg (by simp [hbuf, hflip, hmatch]), hhc]
    rfl
  rw [hclick]
  have hjs : jsOrTen cF.points = p := by simp [hpts, jsOrTen, hp]
  simp only [fireStep, fireTimer, hjs, List.nil_append, List.append_nil]
  refine ⟨trivial, trivial, trivial, ?_, ?_⟩
  · rintro (hgm | hpl)
    · rw [hgm]; exact ⟨rfl, rfl⟩
    · rw [hpl]; cases hmode : s.gameMode <;> exact ⟨rfl, rfl⟩
  · intro hgm hpl
    rw [hgm, hpl]
    exact ⟨rfl, rfl⟩

/-- Witness for C3: in the sample solo session, flipping the lion image and
then the lion text piece and letting both timeouts elapse yields exactly one
more matched pair. -/
theorem claim_C3_witness :
    (fireStep (fireStep (clickStep ⟨(clickStep (sampleApp .solo) 0).game, []⟩ 1))).game.matchCount =
      (clickStep (sampleApp .solo) 0).game.matchCount + 1 :=
  (claim_C3_match_resolution (clickStep (sampleApp .solo) 0).game 0 1
    lionImageFlipped lionTextCard 20 (by decide) (by decide) (by decide)
    rfl rfl rfl rfl (by decide)).1

theorem makePieces_length (sel : List CardData) :
    (makePieces sel).length = 2 * sel.length := by
  induction sel with
  | nil => rfl
  | cons d rest ih => simp [makePieces, piecesOf, List.flatMap_cons] at ih ⊢; omega

theorem makePieces_flags {c : GameCard} {sel : List CardData} (h : c ∈ makePieces sel) :
    c.isFlipped = false ∧ c.isMatched = false ∧ c.isHighlighting = false := by
  induction sel with
  | nil => simp [makePieces] at h
  | cons d rest ih =>
    simp only [makePieces, List.flatMap_cons, piecesOf, List.mem_append, List.mem_cons,
      List.not_mem_nil, or_false] at h
    rcases h with h | h
    · rcases h with rfl | rfl
      · exact ⟨rfl, rfl, rfl⟩
      · exact ⟨rfl, rfl, rfl⟩
    · exact ih h

theorem makePieces_map_id_toFinset (sel : List CardData) :
    ((makePieces sel).map (fun c => c.id)).toFinset = (sel.map (fun c => c.id)).toFinset := by
  induction sel with
  | nil => rfl
  | cons d rest ih =>
    simp only [makePieces, List.flatMap_cons, piecesOf, List.map_append, List.map_cons,
      List.toFinset_append, List.toFinset_cons, List.map_nil, List.toFinset_nil] at ih ⊢
    rw [ih]
    ext y
    simp

theorem makePieces_mem_id {x : String} {sel : List CardData} :
    x ∈ (makePieces sel).map (fun c => c.id) ↔ x ∈ sel.map (fun c => c.id) := by
  induction sel with
  | nil => simp [makePieces]
  | cons d rest ih =>
    simp only [makePieces, List.flatMap_cons, piecesOf, List.map_append, List.map_cons,
      List.mem_append, List.mem_cons, List.map_nil] at ih ⊢
    constructor
    · rintro (h | h)
      · rcases h with h | h | h
        · exact Or.inl h
        · exact Or.inl h
        · simp at h
      · exact Or.inr (ih.mp h)
    · rintro (h | h)
      · exact Or.inl (Or.inl h)
      · exact Or.inr (ih.mpr h)

theorem makePieces_countP_variant (sel : List CardData) (x : String) (v : CardType) :
    (makePieces sel).countP (fun c => decide (c.id = x) && decide (c.cardType = v)) =
      sel.countP (fun d => decide (d.id = x)) := by
  induction sel with
  | nil => rfl
  | cons d rest ih =>
    simp only [makePieces, List.flatMap_cons, piecesOf, List.countP_append, List.countP_cons,
      List.countP_nil] at ih ⊢
    cases v <;> by_cases hx : d.id = x <;> simp [hx, ih, makePieces] <;> omega

theorem assignIdsFrom_length (n : Nat) (l : List GameCard) :
    (assignIdsFrom n l).length = l.length := by
  induction l generalizing n with
  | nil => rfl
  | cons c cs ih => simp [assignIdsFrom, ih]

theorem assignIdsFrom_map_uniqueId (n : Nat) (l : List GameCard) :
    (assignIdsFrom n l).map (fun c => c.uniqueId) = List.range' n l.length := by
  induction l generalizing n with
  | nil => rfl
  | cons c cs ih => simp [assignIdsFrom, ih, List.range'_succ]

theorem assignIdsFrom_countP (n : Nat) (l : List GameCard)
    (q : String → CardType → Bool) :
    (assignIdsFrom n l).countP (fun c => q c.id c.cardType) =
      l.countP (fun c => q c.id c.cardType) := by
  induction l generalizing n with
  | nil => rfl
  | cons c cs ih => simp [assignIdsFrom, List.countP_cons, ih]

theorem assignIdsFrom_map_id (n : Nat) (l : List GameCard) :
    (assignIdsFrom n l).map (fun c => c.id) = l.map (fun c => c.id) := by
  induction l generalizing n with
  | nil => rfl
  | cons c cs ih => simp [assignIdsFrom, ih]

theorem assignIdsFrom_mem {c : GameCard} {n : Nat} {l : List GameCard}
    (h : c ∈ assignIdsFrom n l) :
    ∃ c0 ∈ l, c.id = c0.id ∧ c.cardType = c0.cardType ∧ c.isFlipped = c0.isFlipped ∧
      c.isMatched = c0.isMatched ∧ c.isHighlighting = c0.isHighlighting := by
  induction l generalizing n with
  | nil => simp [assignIdsFrom] at h
  | cons d ds ih =>
    simp only [assignIdsFrom, List.mem_cons] at h
    rcases h with rfl | h
    · exact ⟨d, by simp, rfl, rfl, rfl, rfl, rfl⟩
    · obtain ⟨c0, hc0, hrest⟩ := ih h
      exact ⟨c0, by simp [hc0], hrest⟩

theorem assignIdsFrom_enumFrom (l : List GameCard) :
    ∀ (n k : Nat), ∀ p ∈ (assignIdsFrom n l).enumFrom k, p.2.uniqueId = n + p.1 - k := by
  induction l with
  | nil => intro n k p hp; simp [assignIdsFrom] at hp
  | cons c cs ih =>
    intro n k p hp
    simp only [assignIdsFrom, List.enumFrom_cons] at hp
    rcases List.mem_cons.mp hp with rfl | hp
    · simp
    · have := ih (n + 1) (k + 1) p hp
      omega

theorem countP_eq_one_of_nodup {l : List String} {x : String}
    (hnd : l.Nodup) (hx : x ∈ l) :
    l.countP (fun i => decide (i = x)) = 1 := by
  induction l with
  | nil => simp at hx
  | cons a as ih =>
    rw [List.countP_cons]
    rcases List.mem_cons.mp hx with rfl | hx
    · have h0 : as.countP (fun i => decide (i = x)) = 0 := by
        rw [List.countP_eq_zero]
        intro b hb
        simp only [decide_eq_true_eq]
        rintro rfl
        exact (List.nodup_cons.mp hnd).1 hb
      simp [h0]
    · have hne : a ≠ x := by
        rintro rfl
        exact (List.nodup_cons.mp hnd).1 hx
      rw [ih (List.nodup_cons.mp hnd).2 hx]
      simp [hne]

/-- Claim C5: every deck built from a catalog of at least 6 definitions
(distinct identities, per the data model) has exactly 12 pieces with exactly
6 distinct identities, each identity appearing in exactly one image piece and
exactly one text piece, and each piece's `uniqueId` equals its final position
index. -/
theorem claim_C5_deck_shape (prev : AppState) (mode : GameMode)
    (allCards shuffledPool : List CardData) (shuffledGame : List GameCard) (a : AppState)
    (hlen : 6 ≤ allCards.length)
    (hnodup : (allCards.map (fun c => c.id)).Nodup)
    (hpool : shuffledPool.Perm allCards)
    (hgame : shuffledGame.Perm (makePieces (shuffledPool.take 6)))
    (hinit : initGame prev mode allCards shuffledPool shuffledGame = some a) :
    a.game.cards.length = 12 ∧
    (a.game.cards.map (fun c => c.id)).toFinset.card = 6 ∧
    (∀ x ∈ a.game.cards.map (fun c => c.id),
      a.game.cards.countP
        (fun c => decide (c.id = x) && decide (c.cardType = CardType.image)) = 1 ∧
      a.game.cards.countP
        (fun c => decide (c.id = x) && decide (c.cardType = CardType.text)) = 1) ∧
    (∀ p ∈ a.game.cards.enum, p.2.uniqueId = p.1) := by
  unfold initGame at hinit
  rw [if_neg (by omega)] at hinit
  cases hinit
  have hsellen : (shuffledPool.take 6).length = 6 := by
    rw [List.length_take]
    have := hpool.length_eq
    omega
  have hselnodup : ((shuffledPool.take 6).map (fun c => c.id)).Nodup := by
    have h1 : (shuffledPool.map (fun c => c.id)).Nodup :=
      ((hpool.map (fun c => c.id)).nodup_iff).mpr hnodup
    rw [List.map_take]
    exact h1.sublist (List.take_sublist 6 _)
  have hMap : (assignIds shuffledGame).map (fun c => c.id) =
      shuffledGame.map (fun c => c.id) := assignIdsFrom_map_id 0 _
  have hPermMap : (shuffledGame.map (fun c => c.id)).Perm
      ((makePieces (shuffledPool.take 6)).map (fun c => c.id)) := hgame.map _
  refine ⟨?_, ?_, ?_, ?_⟩
  · show (assignIds shuffledGame).length = 12
    rw [assignIds, assignIdsFrom_length, hgame.length_eq, makePieces_length, hsellen]
  · show ((assignIds shuffledGame).map (fun c => c.id)).toFinset.card = 6
    rw [hMap, List.toFinset_eq_of_perm _ _ hPermMap, makePieces_map_id_toFinset,
      List.toFinset_card_of_nodup hselnodup, List.length_map, hsellen]
  · intro x hx
    have hxsel : x ∈ (shuffledPool.take 6).map (fun c => c.id) := by
      rw [hMap] at hx
      exact makePieces_mem_id.mp (hPermMap.mem_iff.mp hx)
    constructor
    · show (assignIdsFrom 0 shuffledGame).countP
        (fun c => decide (c.id = x) && decide (c.cardType = CardType.image)) = 1
      rw [assignIdsFrom_countP 0 shuffledGame
          (fun i t => decide (i = x) && decide (t = CardType.image)),
        hgame.countP_eq, makePieces_countP_variant]
      have := countP_eq_one_of_nodup hselnodup hxsel
      have hconv : ((shuffledPool.take 6).map (fun c => c.id)).countP
          (fun i => decide (i = x)) =
          (shuffledPool.take 6).countP (fun d => decide (d.id = x)) := by
        rw [List.countP_map]
        rfl
      rw [← hconv, this]
    · show (assignIdsFrom 0 shuffledGame).countP
        (fun c => decide (c.id = x) && decide (c.cardType = CardType.text)) = 1
      rw [assignIdsFrom_countP 0 shuffledGame
          (fun i t => decide (i = x) && decide (t = CardType.text)),
        hgame.countP_eq, makePieces_countP_variant]
      have := countP_eq_one_of_nodup hselnodup hxsel
      have hconv : ((shuffledPool.take 6).map (fun c => c.id)).countP
          (fun i => decide (i = x)) =
          (shuffledPool.take 6).countP (fun d => decide (d.id = x)) := by
        rw [List.countP_map]
        rfl
      rw [← hconv, this]
  · intro p hp
    have := assignIdsFrom_enumFrom shuffledGame 0 0 p hp
    omega

/-- Witness for C5: the sample catalog with identity shuffles yields a
12-piece deck. -/
theorem claim_C5_witness : (sampleApp .solo).game.cards.length = 12 :=
  (claim_C5_deck_shape { game := fullBufferGame, timers := [] } .solo
    sampleCatalog sampleCatalog (makePieces (sampleCatalog.take 6))
    ⟨mkFreshGame .solo sampleDeck, []⟩
    (by decide) (by decide) (List.Perm.refl _) (List.Perm.refl _) (by decide)).1

theorem TimersOK_single {t : Timer} {rest : List Timer} {g : GameState}
    (h : TimersOK (t :: rest) g) : rest = [] := by
  cases rest with
  | nil => rfl
  | cons t2 r2 => cases t <;> exact h.elim

theorem TimersOK_buf_two {t : Timer} {rest : List Timer} {g : GameState}
    (h : TimersOK (t :: rest) g) : g.flippedCards.length = 2 := by
  have hr := TimersOK_single h
  subst hr
  cases t with
  | mismatch ids gm =>
    obtain ⟨h1, h2, _⟩ := h
    rw [← h1]
    exact h2
  | matchHighlight x y cid pts stale gm pl =>
    obtain ⟨h1, _, _, _⟩ := h
    rw [h1]
    rfl
  | matchResolve cid pts stale gm pl => exact h.1

theorem TimersOK_empty_of_short {ts : List Timer} {g : GameState}
    (h : TimersOK ts g) (hlen : g.flippedCards.length ≠ 2) : ts = [] := by
  cases ts with
  | nil => rfl
  | cons t rest => exact absurd (TimersOK_buf_two h) hlen

theorem map_uid_of_preserve {F : GameCard → GameCard}
    (hF : ∀ c, (F c).uniqueId = c.uniqueId) (l : List GameCard) :
    (l.map F).map (fun c => c.uniqueId) = l.map (fun c => c.uniqueId) := by
  induction l with
  | nil => rfl
  | cons c cs ih => simp [hF, ih]


/-- Two distinct members force a count of at least 2. -/
theorem two_le_countP_of_mem {l : List GameCard} {p : GameCard → Bool} {c1 c2 : GameCard}
    (h1 : c1 ∈ l) (h2 : c2 ∈ l) (hne : c1 ≠ c2)
    (hp1 : p c1 = true) (hp2 : p c2 = true) : 2 ≤ l.countP p := by
  rw [List.countP_eq_length_filter]
  have hm1 : c1 ∈ l.filter p := List.mem_filter.mpr ⟨h1, hp1⟩
  have hm2 : c2 ∈ l.filter p := List.mem_filter.mpr ⟨h2, hp2⟩
  have hsub : ({c1, c2} : Finset GameCard) ⊆ (l.filter p).toFinset := by
    intro x hx
    rcases Finset.mem_insert.mp hx with rfl | hx
    · exact List.mem_toFinset.mpr hm1
    · rw [Finset.mem_singleton.mp hx]
      exact List.mem_toFinset.mpr hm2
  calc 2 = ({c1, c2} : Finset GameCard).card := (Finset.card_pair hne).symm
    _ ≤ (l.filter p).toFinset.card := Finset.card_le_card hsub
    _ ≤ (l.filter p).length := (l.filter p).toFinset_card_le

theorem countP_split (l : List GameCard) (p q : GameCard → Bool) :
    l.countP p = l.countP (fun c => p c && q c) + l.countP (fun c => p c && !q c) := by
  induction l with
  | nil => rfl
  | cons c cs ih =>
    cases hp : p c <;> cases hq : q c <;>
      simp [List.countP_cons, hp, hq, ih] <;> omega


/-- Under the no-duplicate-ids invariant, `uniqueId` determines the card. -/
theorem uid_inj {l : List GameCard} (hnd : (l.map (fun c => c.uniqueId)).Nodup)
    {c1 c2 : GameCard} (h1 : c1 ∈ l) (h2 : c2 ∈ l)
    (h : c1.uniqueId = c2.uniqueId) : c1 = c2 :=
  List.inj_on_of_nodup_map hnd h1 h2 h

theorem invBase_click_core {a : AppState} {uid : Nat} {c : GameCard} {l1 l2 : List GameCard}
    (h : InvBase a)
    (hdecomp : a.game.cards = l1 ++ c :: l2)
    (hcuid : c.uniqueId = uid)
    (hflip : c.isFlipped = false) (hmatch : c.isMatched = false)
    (h2 : ¬a.game.flippedCards.length = 2) :
    ((l1 ++ { c with isFlipped := true } :: l2).map (fun x => x.uniqueId)).Nodup ∧
    (a.game.flippedCards ++ [uid]).Nodup ∧
    (a.game.flippedCards ++ [uid]).length ≤ 2 ∧
    (∀ x ∈ l1 ++ { c with isFlipped := true } :: l2,
      x.isFlipped = true → x.isMatched = false →
      x.uniqueId ∈ a.game.flippedCards ++ [uid]) ∧
    (∀ u ∈ a.game.flippedCards ++ [uid],
      ∃ x ∈ l1 ++ { c with isFlipped := true } :: l2,
        x.uniqueId = u ∧ x.isFlipped = true ∧ x.isMatched = false) := by
  have hcmem : c ∈ a.game.cards := by rw [hdecomp]; simp
  have huidnot : uid ∉ a.game.flippedCards := by
    intro hmem
    obtain ⟨c2, hc2mem, hc2uid, hc2flip, hc2match⟩ := h.bufWitness uid hmem
    have hEq : c2 = c := uid_inj h.nodupUids hc2mem hcmem (by rw [hc2uid, hcuid])
    rw [hEq, hflip] at hc2flip
    cases hc2flip
  refine ⟨?_, ?_, ?_, ?_, ?_⟩
  · have hnd := h.nodupUids
    rw [hdecomp] at hnd
    simpa using hnd
  · rw [List.nodup_append]
    refine ⟨h.nodupBuf, List.nodup_singleton uid, ?_⟩
    intro x hx hx2
    rw [List.mem_singleton] at hx2
    subst hx2
    exact huidnot hx
  · have := h.bufLen
    rw [List.length_append]
    simp only [List.length_singleton]
    omega
  · intro x hx hxf hxm
    rw [List.mem_append]
    rcases List.mem_append.mp hx with hx | hx
    · exact Or.inl (h.flippedInBuf x (by rw [hdecomp]; simp [hx]) hxf hxm)
    · rcases List.mem_cons.mp hx with rfl | hx
      · right
        simp [hcuid]
      · exact Or.inl (h.flippedInBuf x (by rw [hdecomp]; simp [hx]) hxf hxm)
  · intro u hu
    rcases List.mem_append.mp hu with hu | hu
    · obtain ⟨x, hxmem, hxuid, hxf, hxm⟩ := h.bufWitness u hu
      refine ⟨x, ?_, hxuid, hxf, hxm⟩
      rw [hdecomp] at hxmem
      rcases List.mem_append.mp hxmem with hx | hx
      · exact List.mem_append.mpr (Or.inl hx)
      · rcases List.mem_cons.mp hx with rfl | hx
        · rw [hflip] at hxf
          cases hxf
        · exact List.mem_append.mpr (Or.inr (List.mem_cons_of_mem _ hx))
    · rw [List.mem_singleton] at hu
      subst hu
      exact ⟨{ c with isFlipped := true }, by simp, by simpa using hcuid, rfl, hmatch⟩

theorem invBase_clickStep {a : AppState} (uid : Nat) (h : InvBase a) :
    InvBase (clickStep a uid) := by
  rcases clickStep_cases a uid with heq | ⟨c, g, ts, hf, hflip, hmatch, h2, hh, heq⟩
  · rw [heq]; exact h
  · rw [heq]
    obtain ⟨l1, l2, hdecomp, hmiss, hcuid, hffl⟩ := findFlip_decomp hf
    have hcmem : c ∈ a.game.cards := List.mem_of_find?_eq_some hf
    rcases handleCardClick_cases hh with ⟨hlen2, _, _⟩ | ⟨_, nc, hffl2, hcase⟩
    · exact absurd hlen2 h2
    have hnc : nc = l1 ++ { c with isFlipped := true } :: l2 := by
      rw [hffl] at hffl2
      exact (Option.some.inj hffl2).symm
    subst hnc
    obtain ⟨hnodupU, hnodupB, hlenB, hfib, hbw⟩ :=
      invBase_click_core h hdecomp hcuid hflip hmatch h2
    have htimers : a.timers = [] := TimersOK_empty_of_short h.timersOK h2
    rcases hcase with ⟨f, fc, sc, hbuf, hf1, hf2, hg, hts⟩ | ⟨hlen1, hg, hts⟩
    · subst hg
      rw [hf] at hf2
      have hsc : c = sc := Option.some.inj hf2
      subst hsc
      rw [hbuf] at hnodupB hlenB hfib hbw
      have hfcmem : fc ∈ a.game.cards := List.mem_of_find?_eq_some hf1
      have hfcuid : fc.uniqueId = f := by
        have := List.find?_some hf1
        simpa using this
      rcases hts with ⟨hid, rfl⟩ | ⟨hid, rfl⟩
      · have hidcond : ∀ x ∈ l1 ++ { c with isFlipped := true } :: l2,
            x.uniqueId ∈ [f, uid] → x.id = fc.id := by
          intro x hx hxuid
          have hxorig : x = { c with isFlipped := true } ∨ x ∈ a.game.cards := by
            rcases List.mem_append.mp hx with hx | hx
            · exact Or.inr (by rw [hdecomp]; simp [hx])
            · rcases List.mem_cons.mp hx with rfl | hx
              · exact Or.inl rfl
              · exact Or.inr (by rw [hdecomp]; simp [hx])
          rcases List.mem_cons.mp hxuid with hxf | hxu
          · rcases hxorig with rfl | hxmem
            · have hcf : c.uniqueId = f := by simpa using hxf
              have hfcc : fc = c := uid_inj h.nodupUids hfcmem hcmem (by rw [hfcuid, hcf])
              rw [hfcc]
            · have hxfc : x = fc := uid_inj h.nodupUids hxmem hfcmem (by rw [hxf, hfcuid])
              rw [hxfc]
          · have hxu2 : x.uniqueId = uid := by simpa using hxu
            have hxid : x.id = c.id := by
              rcases hxorig with rfl | hxmem
              · rfl
              · have hxc : x = c := uid_inj h.nodupUids hxmem hcmem (by rw [hxu2, hcuid])
                rw [hxc]
            rw [hxid]
            exact hid.symm
        exact ⟨hnodupU, hnodupB, hlenB, hfib, hbw, by
          rw [htimers]
          exact ⟨rfl, rfl, rfl, hidcond⟩⟩
      · exact ⟨hnodupU, hnodupB, hlenB, hfib, hbw, by
          rw [htimers]
          exact ⟨rfl, rfl, rfl⟩⟩
    · subst hg
      subst hts
      exact ⟨hnodupU, hnodupB, hlenB, hfib, hbw, by
        rw [htimers]
        exact trivial⟩

theorem contains_iff_mem (l : List Nat) (x : Nat) : l.contains x = true ↔ x ∈ l := by
  rw [List.contains_iff_exists_mem_beq]
  constructor
  · rintro ⟨y, hy, hbeq⟩
    rw [Nat.beq_eq_true_eq] at hbeq
    rwa [hbeq]
  · intro hx
    exact ⟨x, hx, by simp⟩

theorem fireStep_nil {a : AppState} (h : a.timers = []) : fireStep a = a := by
  unfold fireStep
  rw [h]

theorem fireStep_cons {a : AppState} {t : Timer} {rest : List Timer}
    (h : a.timers = t :: rest) :
    fireStep a =
      { game := (fireTimer t a.game).1, timers := rest ++ (fireTimer t a.game).2 } := by
  unfold fireStep
  rw [h]

theorem invBase_fireStep {a : AppState} (h : InvBase a) : InvBase (fireStep a) := by
  cases hts : a.timers with
  | nil =>
    rw [fireStep_nil hts]
    exact h
  | cons t rest =>
    have htOK : TimersOK (t :: rest) a.game := by rw [← hts]; exact h.timersOK
    have hrest : rest = [] := TimersOK_single htOK
    subst hrest
    rw [fireStep_cons hts]
    cases t with
    | mismatch ids gm =>
      obtain ⟨hids, hlen2, hgm⟩ := htOK
      refine ⟨?_, ?_, ?_, ?_, ?_, ?_⟩
      · dsimp only [fireTimer]
        rw [map_uid_of_preserve (fun c => by split <;> rfl)]
        exact h.nodupUids
      · exact List.nodup_nil
      · simp [fireTimer]
      · intro x hx hxf hxm
        exfalso
        obtain ⟨c0, hc0, rfl⟩ := List.mem_map.mp hx
        by_cases hcont : ids.contains c0.uniqueId = true
        · rw [if_pos hcont] at hxf
          cases hxf
        · rw [if_neg hcont] at hxf hxm
          have hmem0 : c0.uniqueId ∈ a.game.flippedCards :=
            h.flippedInBuf c0 hc0 hxf hxm
          rw [← hids] at hmem0
          exact hcont ((contains_iff_mem ids c0.uniqueId).mpr hmem0)
      · intro u hu
        cases hu
      · show TimersOK ([] ++ []) _
        exact trivial
    | matchHighlight x y cid pts stale gm pl =>
      obtain ⟨hbuf, hstale, hgm, hidc⟩ := htOK
      refine ⟨?_, ?_, ?_, ?_, ?_, ?_⟩
      · dsimp only [fireTimer]
        rw [map_uid_of_preserve (fun c => by split <;> rfl)]
        exact h.nodupUids
      · exact h.nodupBuf
      · exact h.bufLen
      · intro z hz hzf hzm
        obtain ⟨c0, hc0, rfl⟩ := List.mem_map.mp hz
        have h0f : c0.isFlipped = true := by
          by_cases hc : c0.uniqueId = x ∨ c0.uniqueId = y
          · rw [if_pos hc] at hzf; exact hzf
          · rw [if_neg hc] at hzf; exact hzf
        have h0m : c0.isMatched = false := by
          by_cases hc : c0.uniqueId = x ∨ c0.uniqueId = y
          · rw [if_pos hc] at hzm; exact hzm
          · rw [if_neg hc] at hzm; exact hzm
        have huid : (if c0.uniqueId = x ∨ c0.uniqueId = y then
            { c0 with isHighlighting := true } else c0).uniqueId = c0.uniqueId := by
          split <;> rfl
        rw [huid]
        exact h.flippedInBuf c0 hc0 h0f h0m
      · intro u hu
        obtain ⟨c0, hc0, hcuid, hcf, hcm⟩ := h.bufWitness u hu
        refine ⟨if c0.uniqueId = x ∨ c0.uniqueId = y then
            { c0 with isHighlighting := true } else c0, List.mem_map_of_mem _ hc0, ?_, ?_, ?_⟩
        · split <;> simpa using hcuid
        · split <;> simpa using hcf
        · split <;> simpa using hcm
      · show TimersOK ([] ++ [Timer.matchResolve cid pts stale gm pl]) _
        refine ⟨hbuf.symm ▸ rfl, hstale, hgm, ?_⟩
        intro z hz hzuid
        obtain ⟨c0, hc0, rfl⟩ := List.mem_map.mp hz
        have huid : (if c0.uniqueId = x ∨ c0.uniqueId = y then
            { c0 with isHighlighting := true } else c0).uniqueId = c0.uniqueId := by
          split <;> rfl
        have hid0 : (if c0.uniqueId = x ∨ c0.uniqueId = y then
            { c0 with isHighlighting := true } else c0).id = c0.id := by
          split <;> rfl
        rw [huid] at hzuid
        rw [hid0]
        exact hidc c0 hc0 hzuid
    | matchResolve cid pts stale gm pl =>
      obtain ⟨hlen2, hstale, hgm, hidc⟩ := htOK
      refine ⟨?_, ?_, ?_, ?_, ?_, ?_⟩
      · dsimp only [fireTimer]
        rw [map_uid_of_preserve (fun c => by split <;> rfl)]
        exact h.nodupUids
      · exact List.nodup_nil
      · simp [fireTimer]
      · intro z hz hzf hzm
        exfalso
        obtain ⟨c0, hc0, rfl⟩ := List.mem_map.mp hz
        by_cases hcid : c0.id = cid
        · rw [if_pos hcid] at hzm
          cases hzm
        · rw [if_neg hcid] at hzf hzm
          have hmem0 : c0.uniqueId ∈ a.game.flippedCards :=
            h.flippedInBuf c0 hc0 hzf hzm
          exact hcid (hidc c0 hc0 hmem0)
      · intro u hu
        cases hu
      · show TimersOK ([] ++ []) _
        exact trivial

theorem invBase_reachable {a0 s : AppState} (h0 : InvBase a0) (hr : Reachable a0 s) :
    InvBase s := by
  induction hr with
  | refl => exact h0
  | click uid _ ih => exact invBase_clickStep uid ih
  | fire _ ih => exact invBase_fireStep ih

theorem invBase_init {prev : AppState} {mode : GameMode}
    {allCards shuffledPool : List CardData} {shuffledGame : List GameCard} {a0 : AppState}
    (hprev : prev.timers = [])
    (hgame : shuffledGame.Perm (makePieces (shuffledPool.take 6)))
    (hinit : initGame prev mode allCards shuffledPool shuffledGame = some a0) :
    InvBase a0 := by
  unfold initGame at hinit
  split at hinit
  · cases hinit
  · cases hinit
    refine ⟨?_, List.nodup_nil, by simp, ?_, ?_, ?_⟩
    · show ((assignIdsFrom 0 shuffledGame).map (fun c => c.uniqueId)).Nodup
      rw [assignIdsFrom_map_uniqueId]
      exact List.nodup_range' _ _
    · intro c hc hcf hcm
      exfalso
      obtain ⟨c0, hc0, _, _, hf0, _, _⟩ := assignIdsFrom_mem hc
      have hflags := makePieces_flags (hgame.mem_iff.mp hc0)
      rw [hf0, hflags.1] at hcf
      cases hcf
    · intro u hu
      cases hu
    · show TimersOK prev.timers _
      rw [hprev]
      exact trivial

/-- The face-up unresolved pieces inject into the selection buffer. -/
theorem flippedUnmatchedCount_le {a : AppState} (h : InvBase a) :
    flippedUnmatchedCount a.game ≤ 2 := by
  unfold flippedUnmatchedCount
  rw [List.countP_eq_length_filter]
  set l2 := a.game.cards.filter (fun c => c.isFlipped && !c.isMatched) with hl2
  have hsub : l2.map (fun c => c.uniqueId) ⊆ a.game.flippedCards := by
    intro u hu
    obtain ⟨c, hc, rfl⟩ := List.mem_map.mp hu
    have hcmem := List.mem_filter.mp hc
    have hflags := hcmem.2
    simp only [Bool.and_eq_true, Bool.not_eq_true'] at hflags
    exact h.flippedInBuf c hcmem.1 hflags.1 hflags.2
  have hnd : (l2.map (fun c => c.uniqueId)).Nodup := by
    have hsubl : l2.Sublist a.game.cards := List.filter_sublist _
    exact h.nodupUids.sublist (hsubl.map _)
  have hle := (List.subperm_of_subset hnd hsub).length_le
  rw [List.length_map] at hle
  exact le_trans hle h.bufLen

/-- Claim C2: starting from a freshly built deck, along every sequence of
clicks and timer elapses, at most 2 unresolved pieces are face-up at any
observable instant. -/
theorem claim_C2_at_most_two_face_up (prev : AppState) (mode : GameMode)
    (allCards shuffledPool : List CardData) (shuffledGame : List GameCard)
    (a0 s : AppState)
    (hprev : prev.timers = [])
    (hgame : shuffledGame.Perm (makePieces (shuffledPool.take 6)))
    (hinit : initGame prev mode allCards shuffledPool shuffledGame = some a0)
    (hr : Reachable a0 s) :
    flippedUnmatchedCount s.game ≤ 2 :=
  flippedUnmatchedCount_le (invBase_reachable (invBase_init hprev hgame hinit) hr)

/-- Witness for C2 at the freshly built sample session. -/
theorem claim_C2_witness : flippedUnmatchedCount (sampleApp .multiplayer).game ≤ 2 :=
  claim_C2_at_most_two_face_up { game := fullBufferGame, timers := [] } .multiplayer
    sampleCatalog sampleCatalog (makePieces (sampleCatalog.take 6))
    (sampleApp .multiplayer) (sampleApp .multiplayer)
    rfl (List.Perm.refl _) (by decide) Reachable.refl

theorem countP_congr_mem {p q : GameCard → Bool} (l : List GameCard)
    (h : ∀ c ∈ l, p c = q c) : l.countP p = l.countP q := by
  induction l with
  | nil => rfl
  | cons c cs ih =>
    simp only [List.countP_cons, h c (by simp),
      ih (fun c2 hc2 => h c2 (by simp [hc2]))]

theorem invExt_clickStep {a : AppState} (uid : Nat) (hb : InvBase a) (he : InvExt a) :
    InvExt (clickStep a uid) := by
  rcases clickStep_cases a uid with heq | ⟨c, g, ts, hf, hflip, hmatch, h2, hh, heq⟩
  · rw [heq]; exact he
  · rw [heq]
    obtain ⟨l1, l2, hdecomp, hmiss, hcuid, hffl⟩ := findFlip_decomp hf
    rcases handleCardClick_cases hh with ⟨hlen2, _, _⟩ | ⟨_, nc, hffl2, hcase⟩
    · exact absurd hlen2 h2
    have hnc : nc = l1 ++ { c with isFlipped := true } :: l2 := by
      rw [hffl] at hffl2
      exact (Option.some.inj hffl2).symm
    subst hnc
    have hgfields : g.cards = l1 ++ { c with isFlipped := true } :: l2 ∧
        g.matchCount = a.game.matchCount ∧ g.isWon = a.game.isWon := by
      rcases hcase with ⟨f, fc, sc, hbuf, hf1, hf2, hg, hts⟩ | ⟨hlen1, hg, hts⟩ <;>
        · subst hg
          exact ⟨rfl, rfl, rfl⟩
    obtain ⟨hgc, hgm, hgw⟩ := hgfields
    have hcount : ∀ p : GameCard → Bool, p { c with isFlipped := true } = p c →
        (l1 ++ { c with isFlipped := true } :: l2).countP p = a.game.cards.countP p := by
      intro p hp
      rw [hdecomp]
      simp [List.countP_append, List.countP_cons, hp]
    refine ⟨?_, ?_, ?_, ?_⟩
    · show g.cards.length = 12
      rw [hgc]
      have := he.cardsLen
      rw [hdecomp] at this
      simpa using this
    · show ∀ x ∈ g.cards, g.cards.countP (fun c2 => decide (c2.id = x.id)) = 2
      rw [hgc]
      intro x hx
      have hx0 : ∃ x0 ∈ a.game.cards, x0.id = x.id := by
        rcases List.mem_append.mp hx with hx | hx
        · exact ⟨x, by rw [hdecomp]; simp [hx], rfl⟩
        · rcases List.mem_cons.mp hx with rfl | hx
          · exact ⟨c, by rw [hdecomp]; simp, rfl⟩
          · exact ⟨x, by rw [hdecomp]; simp [hx], rfl⟩
      obtain ⟨x0, hx0mem, hx0id⟩ := hx0
      rw [hcount (fun c2 => decide (c2.id = x.id)) rfl, ← hx0id]
      exact he.pairs x0 hx0mem
    · show 2 * g.matchCount = g.cards.countP (fun c => c.isMatched)
      rw [hgc, hgm, hcount (fun c2 => c2.isMatched) rfl]
      exact he.matchedCount
    · show g.isWon = true ↔ g.matchCount = 6
      rw [hgw, hgm]
      exact he.wonIff

theorem countP_map_id_pred (l : List GameCard) (F : GameCard → GameCard)
    (hF : ∀ c, (F c).id = c.id) (x : String) :
    (l.map F).countP (fun c => decide (c.id = x)) = l.countP (fun c => decide (c.id = x)) := by
  induction l with
  | nil => rfl
  | cons c cs ih => simp [List.countP_cons, hF, ih]

theorem countP_map_matched (l : List GameCard) (F : GameCard → GameCard)
    (hF : ∀ c, (F c).isMatched = c.isMatched) :
    (l.map F).countP (fun c => c.isMatched) = l.countP (fun c => c.isMatched) := by
  induction l with
  | nil => rfl
  | cons c cs ih => simp [List.countP_cons, hF, ih]

theorem countP_not_split (l : List GameCard) (p : GameCard → Bool) :
    l.length = l.countP p + l.countP (fun c => !p c) := by
  induction l with
  | nil => rfl
  | cons c cs ih =>
    cases hp : p c <;> simp [List.countP_cons, hp, ih] <;> omega

theorem countP_map_matched_or (l : List GameCard) (cid : String) :
    (l.map (fun z => if z.id = cid then { z with isMatched := true, isHighlighting := false }
        else z)).countP (fun c => c.isMatched) =
      l.countP (fun c => c.isMatched) +
        l.countP (fun c => decide (c.id = cid) && !c.isMatched) := by
  induction l with
  | nil => rfl
  | cons d ds ih =>
    by_cases hc : d.id = cid <;> cases hm : d.isMatched <;>
      simp [List.countP_cons, hc, hm, ih] <;> omega

theorem invExt_fireStep {a : AppState} (hb : InvBase a) (he : InvExt a) :
    InvExt (fireStep a) := by
  cases hts : a.timers with
  | nil =>
    rw [fireStep_nil hts]
    exact he
  | cons t rest =>
    have htOK : TimersOK (t :: rest) a.game := by rw [← hts]; exact hb.timersOK
    have hrest : rest = [] := TimersOK_single htOK
    subst hrest
    rw [fireStep_cons hts]
    cases t with
    | mismatch ids gm =>
      refine ⟨?_, ?_, ?_, ?_⟩
      · dsimp only [fireTimer]
        rw [List.length_map]
        exact he.cardsLen
      · dsimp only [fireTimer]
        intro x hx
        obtain ⟨x0, hx0, rfl⟩ := List.mem_map.mp hx
        have hid : (if ids.contains x0.uniqueId = true then { x0 with isFlipped := false }
            else x0).id = x0.id := by
          split <;> rfl
        rw [hid, countP_map_id_pred _ _ (fun c => by split <;> rfl)]
        exact he.pairs x0 hx0
      · dsimp only [fireTimer]
        rw [countP_map_matched _ _ (fun c => by split <;> rfl)]
        exact he.matchedCount
      · dsimp only [fireTimer]
        exact he.wonIff
    | matchHighlight x y cid pts stale gm pl =>
      refine ⟨?_, ?_, ?_, ?_⟩
      · dsimp only [fireTimer]
        rw [List.length_map]
        exact he.cardsLen
      · dsimp only [fireTimer]
        intro z hz
        obtain ⟨z0, hz0, rfl⟩ := List.mem_map.mp hz
        have hid : (if z0.uniqueId = x ∨ z0.uniqueId = y then { z0 with isHighlighting := true }
            else z0).id = z0.id := by
          split <;> rfl
        rw [hid, countP_map_id_pred _ _ (fun c => by split <;> rfl)]
        exact he.pairs z0 hz0
      · dsimp only [fireTimer]
        rw [countP_map_matched _ _ (fun c => by split <;> rfl)]
        exact he.matchedCount
      · dsimp only [fireTimer]
        exact he.wonIff
    | matchResolve cid pts stale gm pl =>
      obtain ⟨hlen2, hstale, hgm, hidc⟩ := htOK
      obtain ⟨u1, u2, hbuf⟩ := List.length_eq_two.mp hlen2
      obtain ⟨c1, hm1, hu1, hfl1, hcm1⟩ := hb.bufWitness u1 (by rw [hbuf]; simp)
      obtain ⟨c2, hm2, hu2, hfl2, hcm2⟩ := hb.bufWitness u2 (by rw [hbuf]; simp)
      have hune : u1 ≠ u2 := by
        have hnd := hb.nodupBuf
        rw [hbuf] at hnd
        simpa using (List.nodup_cons.mp hnd).1
      have hcne : c1 ≠ c2 := by
        intro hEq
        apply hune
        rw [← hu1, hEq, hu2]
      have hcid1 : c1.id = cid := hidc c1 hm1 (by rw [hbuf, ← hu1]; simp)
      have hcid2 : c2.id = cid := hidc c2 hm2 (by rw [hbuf, ← hu2]; simp)
      have htot : a.game.cards.countP (fun c => decide (c.id = cid)) = 2 := by
        have hp := he.pairs c1 hm1
        rwa [hcid1] at hp
      have hun2 : 2 ≤ a.game.cards.countP (fun c => decide (c.id = cid) && !c.isMatched) :=
        two_le_countP_of_mem hm1 hm2 hcne (by simp [hcid1, hcm1]) (by simp [hcid2, hcm2])
      have hsplit := countP_split a.game.cards (fun c => decide (c.id = cid))
        (fun c => c.isMatched)
      have hunm : a.game.cards.countP (fun c => decide (c.id = cid) && !c.isMatched) = 2 := by
        omega
      have hmc5 : a.game.matchCount ≤ 5 := by
        have hlen12 := he.cardsLen
        have hcnt := he.matchedCount
        have hle : a.game.cards.countP (fun c => decide (c.id = cid) && !c.isMatched) ≤
            a.game.cards.countP (fun c => !c.isMatched) :=
          List.countP_mono_left (fun z hz hp => by
            simp only [Bool.and_eq_true] at hp
            exact hp.2)
        have hsum : a.game.cards.length =
            a.game.cards.countP (fun c => c.isMatched) +
              a.game.cards.countP (fun c => !c.isMatched) :=
          countP_not_split _ _
        omega
      refine ⟨?_, ?_, ?_, ?_⟩
      · dsimp only [fireTimer]
        rw [List.length_map]
        exact he.cardsLen
      · dsimp only [fireTimer]
        intro z hz
        obtain ⟨z0, hz0, rfl⟩ := List.mem_map.mp hz
        have hid : (if z0.id = cid then { z0 with isMatched := true, isHighlighting := false }
            else z0).id = z0.id := by
          split <;> rfl
        rw [hid, countP_map_id_pred _ _ (fun c => by split <;> rfl)]
        exact he.pairs z0 hz0
      · dsimp only [fireTimer]
        rw [countP_map_matched_or, hunm]
        have := he.matchedCount
        omega
      · dsimp only [fireTimer]
        rw [hstale]
        have hwon := he.wonIff
        by_cases h6 : a.game.matchCount + 1 = 6
        · rw [if_pos h6]
          simp [h6]
        · rw [if_neg h6]
          constructor
          · intro hw
            have := hwon.mp hw
            omega
          · intro hmc
            omega

theorem makePieces_countP_id (sel : List CardData) (x : String) :
    (makePieces sel).countP (fun c => decide (c.id = x)) =
      2 * sel.countP (fun d => decide (d.id = x)) := by
  induction sel with
  | nil => rfl
  | cons d rest ih =>
    simp only [makePieces, List.flatMap_cons, piecesOf, List.countP_append, List.countP_cons,
      List.countP_nil] at ih ⊢
    by_cases hx : d.id = x <;> simp [hx, ih, makePieces] <;> omega

theorem invExt_init {prev : AppState} {mode : GameMode}
    {allCards shuffledPool : List CardData} {shuffledGame : List GameCard} {a0 : AppState}
    (hlen : 6 ≤ allCards.length)
    (hnodup : (allCards.map (fun c => c.id)).Nodup)
    (hpool : shuffledPool.Perm allCards)
    (hgame : shuffledGame.Perm (makePieces (shuffledPool.take 6)))
    (hinit : initGame prev mode allCards shuffledPool shuffledGame = some a0) :
    InvExt a0 := by
  have hsellen : (shuffledPool.take 6).length = 6 := by
    rw [List.length_take]
    have := hpool.length_eq
    omega
  have hselnodup : ((shuffledPool.take 6).map (fun c => c.id)).Nodup := by
    have h1 : (shuffledPool.map (fun c => c.id)).Nodup :=
      ((hpool.map (fun c => c.id)).nodup_iff).mpr hnodup
    rw [List.map_take]
    exact h1.sublist (List.take_sublist 6 _)
  unfold initGame at hinit
  rw [if_neg (by omega)] at hinit
  cases hinit
  refine ⟨?_, ?_, ?_, ?_⟩
  · show (assignIdsFrom 0 shuffledGame).length = 12
    rw [assignIdsFrom_length, hgame.length_eq, makePieces_length, hsellen]
  · intro c hc
    show (assignIdsFrom 0 shuffledGame).countP (fun c2 => decide (c2.id = c.id)) = 2
    obtain ⟨c0, hc0, hid0, _, _, _, _⟩ := assignIdsFrom_mem hc
    have hxmem : c.id ∈ (shuffledPool.take 6).map (fun d => d.id) := by
      apply makePieces_mem_id.mp
      rw [hid0]
      exact List.mem_map_of_mem _ (hgame.mem_iff.mp hc0)
    rw [assignIdsFrom_countP 0 shuffledGame (fun i t => decide (i = c.id)),
      hgame.countP_eq, makePieces_countP_id]
    have hconv : ((shuffledPool.take 6).map (fun d => d.id)).countP
        (fun i => decide (i = c.id)) =
        (shuffledPool.take 6).countP (fun d => decide (d.id = c.id)) := by
      rw [List.countP_map]
      rfl
    rw [← hconv, countP_eq_one_of_nodup hselnodup hxmem]
  · show 2 * 0 = (assignIdsFrom 0 shuffledGame).countP (fun c => c.isMatched)
    symm
    simp only [Nat.mul_zero]
    rw [List.countP_eq_zero]
    intro c hc
    obtain ⟨c0, hc0, _, _, _, hm0, _⟩ := assignIdsFrom_mem hc
    have hflags := makePieces_flags (hgame.mem_iff.mp hc0)
    simp [hm0, hflags.2.1]
  · show false = true ↔ 0 = 6
    simp

theorem invExt_reachable {a0 s : AppState} (hb0 : InvBase a0) (he0 : InvExt a0)
    (hr : Reachable a0 s) : InvExt s := by
  induction hr with
  | refl => exact he0
  | click uid hr ih => exact invExt_clickStep uid (invBase_reachable hb0 hr) ih
  | fire hr ih => exact invExt_fireStep (invBase_reachable hb0 hr) ih

/-- Claim C7: starting from a freshly built deck (catalog of at least 6
distinct identities), in every reachable state the win flag holds exactly
when 6 pairs have been matched, and once the 6th match resolves every
further flip action and timer elapse is a no-op: the session is permanently
frozen. -/
theorem claim_C7_completion (prev : AppState) (mode : GameMode)
    (allCards shuffledPool : List CardData) (shuffledGame : List GameCard)
    (a0 s : AppState)
    (hprev : prev.timers = [])
    (hlen : 6 ≤ allCards.length)
    (hnodup : (allCards.map (fun c => c.id)).Nodup)
    (hpool : shuffledPool.Perm allCards)
    (hgame : shuffledGame.Perm (makePieces (shuffledPool.take 6)))
    (hinit : initGame prev mode allCards shuffledPool shuffledGame = some a0)
    (hr : Reachable a0 s) :
    (s.game.isWon = true ↔ s.game.matchCount = 6) ∧
    (s.game.matchCount = 6 → (∀ uid, clickStep s uid = s) ∧ fireStep s = s) := by
  have hb := invBase_reachable (invBase_init hprev hgame hinit) hr
  have he := invExt_reachable (invBase_init hprev hgame hinit)
    (invExt_init hlen hnodup hpool hgame hinit) hr
  refine ⟨he.wonIff, ?_⟩
  intro h6
  have hall : ∀ c ∈ s.game.cards, c.isMatched = true := by
    have hcount : s.game.cards.countP (fun c => c.isMatched) = s.game.cards.length := by
      rw [← he.matchedCount, h6, he.cardsLen]
    have hforall := List.countP_eq_length.mp hcount
    intro c hc
    simpa using hforall c hc
  have hbuf : s.game.flippedCards = [] := by
    cases hfc : s.game.flippedCards with
    | nil => rfl
    | cons u us =>
      exfalso
      obtain ⟨c, hcm, _, _, hcmatch⟩ := hb.bufWitness u (by rw [hfc]; simp)
      rw [hall c hcm] at hcmatch
      cases hcmatch
  have htimers : s.timers = [] :=
    TimersOK_empty_of_short hb.timersOK (by rw [hbuf]; simp)
  constructor
  · intro uid
    cases hf : s.game.cards.find? (fun x => decide (x.uniqueId = uid)) with
    | none => exact clickStep_noop_of_not_found s uid hf
    | some c =>
      exact clickStep_noop_of_guard s uid (Or.inr ⟨c, hf,
        Or.inr (hall c (List.mem_of_find?_eq_some hf))⟩)
  · exact fireStep_nil htimers

/-- Witness for C7 at the freshly built sample session (no match yet, not
won). -/
theorem claim_C7_witness :
    ((sampleApp .solo).game.isWon = true ↔ (sampleApp .solo).game.matchCount = 6) :=
  (claim_C7_completion { game := fullBufferGame, timers := [] } .solo sampleCatalog
    sampleCatalog (makePieces (sampleCatalog.take 6)) (sampleApp .solo) (sampleApp .solo)
    rfl (by decide) (by decide) (List.Perm.refl _) (List.Perm.refl _) (by decide)
    Reachable.refl).1
